import Mathlib

set_option maxRecDepth 16384

/-!
Verification of the resilient element-location and interaction layer of the
news-scraper repository (files `webdriver_util/webdrv_util.py`,
`tasks_methods/methods.py`, `helpers/*.py`).

The Python source is shallowly embedded: pure fragments become Lean
functions, the browser is an oracle parameter (a function from a concrete
query to its outcome), loops become fueled recursions, raised exceptions
become `Option`/`Except` values.  Python library routines that the source
calls (`re.search`/`re.findall` on the three literal patterns appearing in
the source, `datetime.strptime` with format `"%B %d, %Y"`,
`difflib.SequenceMatcher.ratio`, and stable `sorted`) are modelled for the
ASCII inputs the scraper handles; floats returned by `ratio` are modelled
as exact rationals.
-/

/-- ASCII model of the character class `\s` used by Python regular
expressions (space, tab, newline, carriage return, vertical tab, form
feed). -/
def isPySpace (c : Char) : Bool :=
  c = ' ' || c = '\t' || c = '\n' || c = '\r' || c = '\x0b' || c = '\x0c'

/-- ASCII model of Python `str.lower`. -/
def pyLower (s : String) : List Char :=
  s.data.map Char.toLower

/-- ASCII model of Python `str.strip`: removes leading and trailing
whitespace. -/
def pyStripChars (cs : List Char) : List Char :=
  ((cs.dropWhile isPySpace).reverse.dropWhile isPySpace).reverse

/-- Python `str.strip` on strings. -/
def pyStrip (s : String) : String :=
  ⟨pyStripChars s.data⟩

/-- ASCII model of the regex word class `\w` (used only through the word
boundary `\b` in `__contains_money`). -/
def isWordChar (c : Char) : Bool :=
  c.isAlphanum || c = '_'

/-- Splits a leading run of decimal digits (`\d+` greedy) from the rest. -/
def takeDigits : List Char → List Char × List Char
  | [] => ([], [])
  | c :: cs =>
    if c.isDigit then
      let p := takeDigits cs
      (c :: p.1, p.2)
    else ([], c :: cs)

/-- Splits a leading run of `\s` characters from the rest. -/
def takeSpaces : List Char → List Char × List Char
  | [] => ([], [])
  | c :: cs =>
    if isPySpace c then
      let p := takeSpaces cs
      (c :: p.1, p.2)
    else ([], c :: cs)

/-- Numeric value of a digit run, as captured by `(\d+)`. -/
def digitsToNat (ds : List Char) : Nat :=
  ds.foldl (fun n c => n * 10 + (c.toNat - 48)) 0

/-- Consumes the literal word `p` from the front of `cs`; returns the rest
on success. -/
def dropLit : List Char → List Char → Option (List Char)
  | [], cs => some cs
  | _ :: _, [] => none
  | p :: ps, c :: cs => if c = p then dropLit ps cs else none

/-- `True` when `pat` is an initial segment of `cs`. -/
def startsWithChars : List Char → List Char → Bool
  | [], _ => true
  | _ :: _, [] => false
  | p :: ps, c :: cs => p = c && startsWithChars ps cs

/-!
## `parse_time_ago` (webdrv_util.py lines 37-66)

The source searches the text for the pattern `(\d+)\s+(hour|minute)s?\s+ago`
with `re.IGNORECASE` and, on a hit, subtracts that many hours or minutes
from the extraction wall clock (`datetime.now()`).  Timestamps are modelled
as minutes (`Int`); the wall clock is the explicit parameter `now`.
-/

/-- Tail of the time-ago pattern after the unit word: optional `s`, then
`\s+`, then the literal `ago`.  Returns the captured value and whether the
unit was hours. -/
def timeAgoTail (isHour : Bool) (v : Nat) (r : List Char) : Option (Nat × Bool) :=
  let r1 := match r with
    | 's' :: t => t
    | other => other
  let p := takeSpaces r1
  if p.1.isEmpty then none
  else
    match dropLit "ago".data p.2 with
    | some _ => some (v, isHour)
    | none => none

/-- Attempts the time-ago pattern anchored at the given position of the
(lowercased) text. -/
def timeAgoAt (cs : List Char) : Option (Nat × Bool) :=
  let d := takeDigits cs
  if d.1.isEmpty then none
  else
    let s := takeSpaces d.2
    if s.1.isEmpty then none
    else
      match dropLit "hour".data s.2 with
      | some r3 => timeAgoTail true (digitsToNat d.1) r3
      | none =>
        match dropLit "minute".data s.2 with
        | some r3 => timeAgoTail false (digitsToNat d.1) r3
        | none => none

/-- `re.search` semantics: the leftmost position at which the pattern
matches wins. -/
def timeAgoSearchAux : List Char → Option (Nat × Bool)
  | [] => none
  | c :: cs =>
    match timeAgoAt (c :: cs) with
    | some r => some r
    | none => timeAgoSearchAux cs

/-- `re.search(r"(\d+)\s+(hour|minute)s?\s+ago", text, re.IGNORECASE)`,
returning the captured value and unit.  `re.IGNORECASE` is modelled by
lowercasing the text; digits and whitespace are unaffected. -/
def timeAgoSearch (text : String) : Option (Nat × Bool) :=
  timeAgoSearchAux (pyLower text)

/-- `parse_time_ago` (webdrv_util.py 37-66): on a pattern hit the result is
`now` minus the captured number of hours or minutes; otherwise `None`. -/
def parse_time_ago (now : Int) (text : String) : Option Int :=
  match timeAgoSearch text with
  | none => none
  | some (v, isHour) => some (now - (if isHour then 60 * (v : Int) else (v : Int)))

/-!
## `datetime.strptime(s, "%B %d, %Y")` (used at methods.py 292-294)

Python compiles the format to the anchored regular expression
`(january|...|december)\s+(3[01]|[12]\d|0[1-9]|[1-9]),\s+(\d\d\d\d)`
matched case-insensitively against the whole string, and then validates the
day against the month length (leap years included) when constructing the
`datetime`.
-/

def monthNames : List (String × Nat) :=
  [("january", 1), ("february", 2), ("march", 3), ("april", 4), ("may", 5),
   ("june", 6), ("july", 7), ("august", 8), ("september", 9), ("october", 10),
   ("november", 11), ("december", 12)]

/-- Matches one of the month names (`%B`) at the front of the lowercased
text. -/
def matchMonth : List (String × Nat) → List Char → Option (Nat × List Char)
  | [], _ => none
  | (nm, idx) :: rest, cs =>
    match dropLit nm.data cs with
    | some r => some (idx, r)
    | none => matchMonth rest cs

/-- Matches `%d`, i.e. `(3[01]|[12]\d|0[1-9]|[1-9])`: a valid two-digit day
if possible, otherwise a single nonzero digit. -/
def matchDay : List Char → Option (Nat × List Char)
  | [] => none
  | c1 :: rest1 =>
    if !c1.isDigit then none
    else
      match rest1 with
      | c2 :: rest2 =>
        if c2.isDigit &&
            ((c1 = '3' && (c2 = '0' || c2 = '1')) || c1 = '1' || c1 = '2' ||
              (c1 = '0' && c2 ≠ '0')) then
          some ((c1.toNat - 48) * 10 + (c2.toNat - 48), rest2)
        else if c1 ≠ '0' then some (c1.toNat - 48, rest1)
        else none
      | [] => if c1 ≠ '0' then some (c1.toNat - 48, []) else none

/-- Matches `%Y`, i.e. exactly four digits. -/
def matchYear4 : List Char → Option (Nat × List Char)
  | a :: b :: c :: d :: rest =>
    if a.isDigit && b.isDigit && c.isDigit && d.isDigit then
      some (digitsToNat [a, b, c, d], rest)
    else none
  | _ => none

def isLeapYear (y : Nat) : Bool :=
  (y % 4 = 0 && y % 100 ≠ 0) || y % 400 = 0

def daysInMonth (y m : Nat) : Nat :=
  if m = 2 then (if isLeapYear y then 29 else 28)
  else if m = 4 || m = 6 || m = 9 || m = 11 then 30
  else 31

/-- `datetime.strptime(s, "%B %d, %Y")` as a total function: the parsed
(year, month, day) on success, `none` where Python raises `ValueError`
(pattern mismatch, trailing text, day out of range for the month, or
year 0). -/
def strptimeBDY (s : String) : Option (Nat × Nat × Nat) :=
  let cs := pyLower s
  match matchMonth monthNames cs with
  | none => none
  | some (m, r1) =>
    let sp := takeSpaces r1
    if sp.1.isEmpty then none
    else
      match matchDay sp.2 with
      | none => none
      | some (d, r3) =>
        match r3 with
        | ',' :: r4 =>
          let sp2 := takeSpaces r4
          if sp2.1.isEmpty then none
          else
            match matchYear4 sp2.2 with
            | none => none
            | some (y, r6) =>
              if r6.isEmpty && 1 ≤ y && d ≤ daysInMonth y m then some (y, m, d)
              else none
        | _ => none

/-- Leap days among years `1..n` (as in `datetime.date.toordinal`). -/
def leapsBefore (n : Nat) : Nat :=
  n / 4 - n / 100 + n / 400

def daysBeforeYear (y : Nat) : Nat :=
  365 * (y - 1) + leapsBefore (y - 1)

def daysBeforeMonth (y m : Nat) : Nat :=
  (List.range (m - 1)).foldl (fun acc i => acc + daysInMonth y (i + 1)) 0

/-- Midnight of the given proleptic-Gregorian calendar date, in the minute
timeline used for `now` (day 0001-01-01 is minute 0). -/
def dateToMinutes (y m d : Nat) : Int :=
  ((daysBeforeYear y + daysBeforeMonth y m + (d - 1) : Nat) : Int) * 1440

/-- The timestamp-resolution step of `ScraperMethods.collect_articles`
(methods.py 286-294): strip the timestamp text, try `parse_time_ago`, and
otherwise parse it as an absolute `"%B %d, %Y"` date.  `none` models the
`ValueError` raised by `strptime` on an unrecognized format, which the
enclosing `try` of `collect_articles` turns into a `None` result for the
work item. -/
def articleDate (now : Int) (timeText : String) : Option Int :=
  match parse_time_ago now (pyStrip timeText) with
  | some t => some t
  | none =>
    match strptimeBDY (pyStrip timeText) with
    | some (y, m, d) => some (dateToMinutes y m d)
    | none => none

/-!
## `normalize` and `difflib.SequenceMatcher.ratio` (webdrv_util.py 211-221,
876-920, 989-1010)

`find_fuzzy` and `select_option` rank candidates by
`SequenceMatcher(None, normalize(to_string(op)), normalize(target)).ratio()`.
The Ratcliff-Obershelp recursion of `difflib` is embedded directly: the
longest matching block (ties resolved toward the lexicographically smallest
position pair, as in the CPython scan order), recursive block collection on
both sides, and the ratio `2*M/(len(a)+len(b))` kept as an exact fraction
(a numerator-denominator pair with positive denominator, compared by
cross-multiplication, which orders fractions exactly as the real ratio
does).  The autojunk heuristic of `difflib` only activates on sequences of
length ≥ 200 and is never triggered by the scraper's short labels, so it is
omitted.
-/

/-- `normalize` (webdrv_util.py 211-221): lowercase, then strip.  (Named
`normalizeText` here because `normalize` is taken by Mathlib.) -/
def normalizeText (t : String) : String :=
  pyStrip ⟨pyLower t⟩

/-- Length of the common run starting at the heads of the two suffixes. -/
def runLen : List Char → List Char → Nat
  | a :: as, b :: bs => if a = b then runLen as bs + 1 else 0
  | _, _ => 0

/-- One candidate step of the longest-matching-block scan: replace the best
block only on a strictly longer run, so the first (lexicographically
smallest) maximal position pair is kept, as in `difflib`. -/
def flmStep (a b : List Char) (best : Nat × Nat × Nat) (i j : Nat) : Nat × Nat × Nat :=
  let k := runLen (a.drop i) (b.drop j)
  if best.2.2 < k then (i, j, k) else best

/-- `SequenceMatcher.find_longest_match` over the whole ranges (no junk):
returns `(i, j, size)` of the longest matching block. -/
def flm (a b : List Char) : Nat × Nat × Nat :=
  (List.range a.length).foldl
    (fun best i => (List.range b.length).foldl (fun bb j => flmStep a b bb i j) best)
    (0, 0, 0)

/-- Total size of the matching blocks (`get_matching_blocks` recursion),
with fuel bounding the recursion depth; `matchTotal` supplies ample fuel
(the recursion halves the total length at each level). -/
def matchSumF : Nat → List Char → List Char → Nat
  | 0, _, _ => 0
  | fuel + 1, a, b =>
    let t := flm a b
    if t.2.2 = 0 then 0
    else
      matchSumF fuel (a.take t.1) (b.take t.2.1) + t.2.2 +
        matchSumF fuel (a.drop (t.1 + t.2.2)) (b.drop (t.2.1 + t.2.2))

def matchTotal (a b : List Char) : Nat :=
  matchSumF (a.length + b.length + 1) a b

/-- An exact fraction with positive denominator; the value of a similarity
ratio.  Comparisons cross-multiply, which agrees with the order of the real
quotients. -/
structure Score where
  num : Nat
  den : Nat
  den_pos : 0 < den

def Score.le (p q : Score) : Prop :=
  p.num * q.den ≤ q.num * p.den

def Score.lt (p q : Score) : Prop :=
  p.num * q.den < q.num * p.den

instance : DecidableRel Score.le :=
  fun p q => inferInstanceAs (Decidable (p.num * q.den ≤ q.num * p.den))

instance : DecidableRel Score.lt :=
  fun p q => inferInstanceAs (Decidable (p.num * q.den < q.num * p.den))

theorem Score.le_refl (p : Score) : p.le p :=
  Nat.le_refl _

theorem Score.le_total_pair (p q : Score) : p.le q ∨ q.le p :=
  Nat.le_total _ _

theorem Score.not_le_of_lt {p q : Score} (h : p.lt q) : ¬ q.le p :=
  fun hle => absurd (Nat.lt_of_lt_of_le h hle) (Nat.lt_irrefl _)

theorem Score.le_trans {a b c : Score} (h1 : a.le b) (h2 : b.le c) : a.le c := by
  have hb := b.den_pos
  have g1 : a.num * b.den * c.den ≤ b.num * a.den * c.den :=
    Nat.mul_le_mul_right _ h1
  have g2 : b.num * c.den * a.den ≤ c.num * b.den * a.den :=
    Nat.mul_le_mul_right _ h2
  have g3 : a.num * c.den * b.den ≤ c.num * a.den * b.den := by
    calc a.num * c.den * b.den = a.num * b.den * c.den := by ring
      _ ≤ b.num * a.den * c.den := g1
      _ = b.num * c.den * a.den := by ring
      _ ≤ c.num * b.den * a.den := g2
      _ = c.num * a.den * b.den := by ring
  exact Nat.le_of_mul_le_mul_right g3 hb

/-- `SequenceMatcher(None, x, y).ratio()`: `2*M / (len(x)+len(y))`, and 1
for two empty sequences. -/
def simScore (x y : String) : Score :=
  if h : x.data.length + y.data.length = 0 then ⟨1, 1, Nat.one_pos⟩
  else ⟨2 * matchTotal x.data y.data, x.data.length + y.data.length, Nat.pos_of_ne_zero h⟩

/-- The ranking key shared by `find_fuzzy` and `select_option`: similarity
of the normalized candidate string to the normalized target. -/
def fkey (toS : α → String) (target : String) (op : α) : Score :=
  simScore (normalizeText (toS op)) (normalizeText target)

/-- Ascending comparison on a fractional key; `List.insertionSort` with
this relation inserts new elements before key-equal ones, which reproduces
the stable ascending order of Python `sorted`. -/
def keyLe (key : α → Score) (p q : α) : Prop :=
  (key p).le (key q)

/-- Descending comparison on a fractional key; `List.insertionSort` with
this relation reproduces the stable order of Python
`sorted(..., reverse=True)`, under which key-equal elements keep their
input order. -/
def keyGe (key : α → Score) (p q : α) : Prop :=
  (key q).le (key p)

instance (key : α → Score) : DecidableRel (keyLe key) :=
  fun p q => inferInstanceAs (Decidable ((key p).le (key q)))

instance (key : α → Score) : DecidableRel (keyGe key) :=
  fun p q => inferInstanceAs (Decidable ((key q).le (key p)))

instance (key : α → Score) : IsTotal α (keyLe key) :=
  ⟨fun a b => Score.le_total_pair (key a) (key b)⟩

instance (key : α → Score) : IsTrans α (keyLe key) :=
  ⟨fun _ _ _ h1 h2 => Score.le_trans h1 h2⟩

instance (key : α → Score) : IsTotal α (keyGe key) :=
  ⟨fun a b => Score.le_total_pair (key b) (key a)⟩

instance (key : α → Score) : IsTrans α (keyGe key) :=
  ⟨fun _ _ _ h1 h2 => Score.le_trans h2 h1⟩

/-- `find_fuzzy` (webdrv_util.py 989-1010): stable ascending sort of the
candidates by similarity to the target, then the last element
(`sorted(...)[-1]`); `none` models the `IndexError` on an empty candidate
list, which the source converts to `None`. -/
def find_fuzzy (elements : List α) (toS : α → String) (target : String) : Option α :=
  (List.insertionSort (keyLe (fkey toS target)) elements).getLast?

/-- The ranking step of `select_option` (webdrv_util.py 876-920): stable
descending sort of the option elements by the same similarity key
(`sorted(..., reverse=True)`), then index 0. -/
def select_option_rank (options : List α) (toS : α → String) (target : String) : Option α :=
  (List.insertionSort (keyGe (fkey toS target)) options).head?

/-!
## `Selector` and `find_element` (helpers/selector.py, webdrv_util.py
769-813)

The browser is abstracted as an oracle `page : Strategy → Option α` giving
the element (if any) that the one concrete locator query dispatched for a
selector would return.  `findElementRun` also records the list of strategy
queries actually dispatched, in order.
-/

/-- `Selector` (helpers/selector.py): css, xpath and text default to the
empty string, attr to an empty tuple (modelled as `none`; the source
destructures it as a pair when present). -/
structure Selector where
  css : String := ""
  xpath : String := ""
  text : String := ""
  attr : Option (String × String) := none
deriving DecidableEq

/-- One concrete locator query, as dispatched by `find_element`. -/
inductive Strategy where
  | byXpath (xp : String)
  | byCssAttr (css attrName attrVal : String)
  | byCssText (css text : String)
  | byCss (css : String)
deriving DecidableEq

/-- The strategy-dispatch chain of `find_element` (webdrv_util.py 790-802):
`if selector.xpath: ... elif selector.css and selector.attr: ... elif
selector.css and selector.text: ... elif selector.css: ...`, Python
truthiness of a string being non-emptiness. -/
def strategyOf (s : Selector) : Option Strategy :=
  if s.xpath ≠ "" then some (.byXpath s.xpath)
  else if s.css ≠ "" then
    match s.attr with
    | some (a, v) => some (.byCssAttr s.css a v)
    | none => if s.text ≠ "" then some (.byCssText s.css s.text) else some (.byCss s.css)
  else none

/-- `find_element` (webdrv_util.py 769-813) over the selector list: per
selector exactly one strategy is dispatched; the first selector whose query
yields an element wins, later selectors are not consulted; falling off the
end returns `None`.  The second component records the dispatched queries in
order. -/
def findElementRun (page : Strategy → Option α) : List Selector → Option α × List Strategy
  | [] => (none, [])
  | s :: rest =>
    match strategyOf s with
    | none => findElementRun page rest
    | some st =>
      match page st with
      | some e => (some e, [st])
      | none => ((findElementRun page rest).1, st :: (findElementRun page rest).2)

/-- The value returned by `find_element`. -/
def find_element (page : Strategy → Option α) (sels : List Selector) : Option α :=
  (findElementRun page sels).1

/-!
## `wait_for` (webdrv_util.py 1085-1125)

The probe is indexed by the attempt number; time advances in quarter-second
units (the fixed `delta = 0.25`), so a timeout of `timeout` seconds allows
`4 * timeout` polling iterations, after which the source makes one final
probe call outside the loop and returns its result.  The pair also counts
the probe calls made.
-/

def waitGo (probe : Nat → Option α) : Nat → Nat → Option α × Nat
  | 0, k => (probe k, k + 1)
  | r + 1, k =>
    match probe k with
    | some v => (some v, k + 1)
    | none => waitGo probe r (k + 1)

/-- `wait_for` together with the number of probe invocations it makes. -/
def wait_for_trace (probe : Nat → Option α) (timeout : Nat) : Option α × Nat :=
  waitGo probe (4 * timeout) 0

/-- `wait_for` (webdrv_util.py 1085-1125). -/
def wait_for (probe : Nat → Option α) (timeout : Nat) : Option α :=
  (wait_for_trace probe timeout).1

/-!
## `retry`, `DontRetryException` and `Fatal` (webdrv_util.py 1128-1187)

Exceptions carry a class name and a message; `wrapped` stands for an
exception object that carries attached metadata (such as a `Fatal`).  The
behaviour of the callee on the k-th call is the oracle `f`.  The trace
records the value returned or re-raised, the number of calls made, and the
number of `sleep(sleep_time)` pauses taken between attempts.
-/

inductive Exc where
  | dontRetry (name msg : String)
  | plain (name msg : String)
  | wrapped (name msg : String) (context : List (String × String))
deriving DecidableEq

/-- `isinstance(e, DontRetryException)`. -/
def Exc.isDontRetry : Exc → Bool
  | .dontRetry _ _ => true
  | _ => false

/-- `e.__class__.__name__`. -/
def Exc.clsName : Exc → String
  | .dontRetry n _ => n
  | .plain n _ => n
  | .wrapped n _ _ => n

/-- `str(e)`. -/
def Exc.message : Exc → String
  | .dontRetry _ m => m
  | .plain _ m => m
  | .wrapped _ m _ => m

/-- Whether the exception value carries attached diagnostic metadata. -/
def Exc.hasMeta : Exc → Bool
  | .wrapped _ _ _ => true
  | _ => false

/-- The dictionary built by `Fatal.metadata` (webdrv_util.py 1182-1187):
the caller-supplied context plus the retriable flag, the exception class
name and the message. -/
structure FatalMeta where
  context : List (String × String)
  retriable : Bool
  exception_name : String
  exception_message : String
deriving DecidableEq

/-- `Fatal(e, metadata).metadata()` for a wrapped exception `e`. -/
def fatalMetadata (e : Exc) (base : List (String × String)) : FatalMeta :=
  ⟨base, !e.isDontRetry, e.clsName, e.message⟩

/-- Result of a `retry` run: the returned or re-raised value (`.ok none`
models falling off the loop, reachable only with a zero attempt budget),
plus call and sleep counts. -/
structure RetryTrace (α : Type) where
  result : Except Exc (Option α)
  calls : Nat
  sleeps : Nat

/-- The loop of `retry` (webdrv_util.py 1144-1163): `attempt` is the loop
index, the first argument the remaining iterations.  A
`DontRetryException` is re-raised at once; any other exception is re-raised
once `attempt + 1 >= attempts`, and otherwise sleeps and retries. -/
def retryGo (f : Nat → Except Exc α) (attempts : Nat) : Nat → Nat → RetryTrace α
  | 0, _ => ⟨.ok none, 0, 0⟩
  | r + 1, attempt =>
    match f attempt with
    | .ok v => ⟨.ok (some v), 1, 0⟩
    | .error e =>
      if e.isDontRetry then ⟨.error e, 1, 0⟩
      else if attempts ≤ attempt + 1 then ⟨.error e, 1, 0⟩
      else
        let t := retryGo f attempts r (attempt + 1)
        ⟨t.result, t.calls + 1, t.sleeps + 1⟩

/-- `retry(fun, on_fail, sleep_time, attempts)` (webdrv_util.py
1128-1163). -/
def retry_run (f : Nat → Except Exc α) (attempts : Nat) : RetryTrace α :=
  retryGo f attempts attempts 0

/-!
## `Article` and `ScraperMethods.collect_articles` (helpers/article.py,
methods.py 214-323)

A page state is abstracted as the data the locator calls inside the loop
would produce: whether the results header is present, the extracted
`(title, timestamp, description, photo)` of each result row, and whether a
next-page control exists.  Clicking the next-page control advances the
page index.  The timeline is in minutes (`now` is the extraction wall
clock); dates are `Option Int` because the dataclass default is the falsy
empty string.  The `while` loop becomes a fueled recursion;
`CollectRes.fuelOut` marks runs that have not terminated within the given
fuel.
-/

structure Article where
  title : String := ""
  date : Option Int := none
  description : String := ""
  picture_filename : String := ""
  picture_local_path : Option String := none
  title_count_phrase : Nat := 0
  description_count_phrase : Nat := 0
  find_money_title_description : Bool := false
deriving DecidableEq

/-- The raw data of one result row (`h3.promo-title` text,
`p.promo-timestamp` text, `p.promo-description` text, and the `src` found
by `find_elm_picture`, if any). -/
structure Row where
  title : String
  timeText : String
  description : String
  photo : Option String
deriving DecidableEq

/-- One rendered result page. -/
structure Page where
  header : Bool
  rows : List Row
  hasNext : Bool
deriving DecidableEq

/-- Construction of one `Article` inside the row loop (methods.py
245-298): texts are stripped, the photo (when found) fills
`picture_filename`, and the timestamp is resolved by `parse_time_ago` with
`strptime` as fallback; `none` models the uncaught `ValueError` that aborts
the whole collection. -/
def mkArticle (now : Int) (r : Row) : Option Article :=
  let pic := match r.photo with
    | some p => p
    | none => ""
  match articleDate now r.timeText with
  | none => none
  | some dt =>
    some { title := pyStrip r.title, date := some dt, description := pyStrip r.description,
           picture_filename := pic }

/-- The `for li in li_search_results` loop (methods.py 243-302): append
each article; once `results == cont`, clear `more_results` and break;
otherwise increment `cont`.  Returns the updated accumulator, `cont`, and
`more_results`; `none` models the abort on a timestamp-format failure. -/
def processRows (now : Int) (results : Nat) :
    List Row → List Article → Nat → Option (List Article × Nat × Bool)
  | [], arts, cont => some (arts, cont, true)
  | r :: rs, arts, cont =>
    match mkArticle now r with
    | none => none
    | some a =>
      let arts2 := arts ++ [a]
      if results = cont then some (arts2, cont, false)
      else processRows now results rs arts2 (cont + 1)

/-- Mutable state of the `while more_results` loop: current page index,
accumulator, row counter `cont`, the `more_results` flag, and the number of
clicks on the next-page control (ghost instrumentation). -/
structure CState where
  idx : Nat
  arts : List Article
  cont : Nat
  more : Bool
  clicks : Nat
deriving DecidableEq

/-- Initial loop state (methods.py 226-228). -/
def st0 : CState :=
  ⟨0, [], 1, true, 0⟩

inductive CollectRes where
  | fuelOut
  | aborted
  | done (arts : List Article) (clicks : Nat)
deriving DecidableEq

/-- `ScraperMethods.collect_articles` (methods.py 214-323) as a fueled
transition function.  Each fuel unit is one `while` iteration.  When the
results header is absent, or the row list is empty, the iteration changes
nothing.  After the row loop the source looks for the next-page control
and, when present, clicks it unconditionally and clears `more_results`
only if `results < cont`. -/
def collectGo (env : List Page) (now : Int) (results : Nat) : Nat → CState → CollectRes
  | 0, _ => .fuelOut
  | fuel + 1, st =>
    if st.more = false then .done st.arts st.clicks
    else
      if (env.getD st.idx ⟨false, [], false⟩).header then
        if (env.getD st.idx ⟨false, [], false⟩).rows.isEmpty then
          collectGo env now results fuel st
        else
          match processRows now results (env.getD st.idx ⟨false, [], false⟩).rows
              st.arts st.cont with
          | none => .aborted
          | some (arts, cont, more) =>
            if (env.getD st.idx ⟨false, [], false⟩).hasNext then
              collectGo env now results fuel
                ⟨st.idx + 1, arts, cont, if results < cont then false else more, st.clicks + 1⟩
            else collectGo env now results fuel ⟨st.idx, arts, cont, more, st.clicks⟩
      else collectGo env now results fuel st

/-!
## `ExcelOtherMethods` (methods.py 326-448)

`__contains_money` applies `re.findall(r"\$[0-9,.]+|\b\d+\s*(?:dollars|USD)\b", text)`
(case-sensitively) and tests for a non-empty match list; `prepare_articles`
counts case-insensitive occurrences of the escaped phrase with
`re.findall(re.escape(phrase), text.strip(), re.IGNORECASE)` and builds a
fresh `Article` per input article.  `__download_image` performs network and
filesystem IO and is abstracted as the oracle `download`.
-/

/-- Characters allowed after `$` by `\$[0-9,.]+`. -/
def isDollarBody (c : Char) : Bool :=
  c.isDigit || c = ',' || c = '.'

/-- The first regex alternative `\$[0-9,.]+` anchored at this position. -/
def moneyAlt1 : List Char → Bool
  | '$' :: c :: _ => isDollarBody c
  | _ => false

/-- After the literal `dollars`/`USD`, the trailing `\b` requires the next
character (if any) not to be a word character. -/
def wordThenBoundary (w : List Char) (cs : List Char) : Bool :=
  match dropLit w cs with
  | some [] => true
  | some (c :: _) => !isWordChar c
  | none => false

/-- The second regex alternative `\d+\s*(?:dollars|USD)\b` anchored at this
position (the leading `\b` is checked by the caller). -/
def moneyAlt2 (cs : List Char) : Bool :=
  let d := takeDigits cs
  if d.1.isEmpty then false
  else
    let s := takeSpaces d.2
    wordThenBoundary "dollars".data s.2 || wordThenBoundary "USD".data s.2

/-- Scan of all match positions; the flag carries whether the previous
character was a word character (for the `\b` before the digits). -/
def containsMoneyAux : Bool → List Char → Bool
  | _, [] => false
  | prevWord, c :: cs =>
    if moneyAlt1 (c :: cs) then true
    else if !prevWord && moneyAlt2 (c :: cs) then true
    else containsMoneyAux (isWordChar c) cs

/-- `ExcelOtherMethods.__contains_money` (methods.py 328-344). -/
def contains_money (text : String) : Bool :=
  containsMoneyAux false text.data

/-- Non-overlapping occurrence scan of `re.findall` for a literal
(escaped) pattern, advancing past each match. -/
def countOccAux (pat : List Char) : Nat → List Char → Nat
  | 0, _ => 0
  | fuel + 1, cs =>
    match cs with
    | [] => 0
    | _ :: rest =>
      if startsWithChars pat cs then 1 + countOccAux pat fuel (cs.drop pat.length)
      else countOccAux pat fuel rest

/-- `len(re.findall(re.escape(phrase), text, re.IGNORECASE))`: the number
of non-overlapping case-insensitive occurrences of the literal phrase; an
empty pattern matches at every position including the end. -/
def countOcc (phrase text : String) : Nat :=
  let pat := pyLower phrase
  let cs := pyLower text
  if pat.isEmpty then cs.length + 1
  else countOccAux pat cs.length cs

/-- Construction of one output article inside `prepare_articles`
(methods.py 408-433); `download` abstracts `__download_image`. -/
def prepareOne (download : String → String → Option String) (phrase : String)
    (a : Article) : Article :=
  { title := a.title
    date := a.date
    title_count_phrase := countOcc phrase (pyStrip a.title)
    description := a.description
    description_count_phrase := countOcc phrase (pyStrip a.description)
    find_money_title_description := contains_money a.title
    picture_filename := if 0 < a.picture_filename.length then a.picture_filename else ""
    picture_local_path :=
      if 0 < a.picture_filename.length then download a.picture_filename (pyStrip a.title)
      else none }

/-- `ExcelOtherMethods.prepare_articles` (methods.py 393-448): `None` for a
`None` or empty input (the `if list_articles:` guard falls through to the
implicit `return None`), otherwise the accumulator built by the loop. -/
def prepare_articles (download : String → String → Option String)
    (list_articles : Option (List Article)) (phrase : String) : Option (List Article) :=
  match list_articles with
  | none => none
  | some l =>
    if l.isEmpty then none
    else some (l.foldl (fun acc a => acc ++ [prepareOne download phrase a]) [])

/-!
Concrete page environments used for the collection-loop scenarios.
-/

/-- A result row whose timestamp is a relative phrase. -/
def rowT : Row :=
  ⟨"t", "3 hours ago", "d", none⟩

/-- The article `rowT` extracts at wall clock 0. -/
def artT : Article :=
  { title := "t", date := some (-180), description := "d" }

/-- One page of 10 rows with a next-page control. -/
def envA1 : List Page :=
  [⟨true, List.replicate 10 rowT, true⟩]

/-- One page of 10 rows without a next-page control. -/
def envA2 : List Page :=
  [⟨true, List.replicate 10 rowT, false⟩]

/-- Two pages of 10 rows; only the first has a next-page control. -/
def envB : List Page :=
  [⟨true, List.replicate 10 rowT, true⟩, ⟨true, List.replicate 10 rowT, false⟩]

/-- A page state whose results container is absent. -/
def envAbsent : List Page :=
  [⟨false, [], false⟩]

/-- One page of a single row and no next-page control. -/
def envNoNext : List Page :=
  [⟨true, [rowT], false⟩]


/-!
## Model validation on concrete inputs

Each evaluation below was cross-checked against the behaviour of the
CPython implementation (`re`, `difflib`, `datetime.strptime`) on the same
input.
-/

example : timeAgoSearch "3 hours ago" = some (3, true) := by decide
example : timeAgoSearch "45 minutes ago" = some (45, false) := by decide
example : timeAgoSearch "Yesterday" = none := by decide
example : strptimeBDY "January 5, 2024" = some (2024, 1, 5) := by decide
example : strptimeBDY "February 30, 2024" = none := by decide
example : strptimeBDY "January 5, 2024 x" = none := by decide
example : matchTotal "busines".data "business".data = 7 := by decide
example : matchTotal "sports".data "business".data = 2 := by decide
example : find_fuzzy ([] : List String) id "x" = none := by decide
example : contains_money "He won $5,000 yesterday" = true := by decide
example : contains_money "500 dollars were paid" = true := by decide
example : contains_money "win 3USD now" = true := by decide
example : contains_money "USDollars 5" = false := by decide
example : contains_money "price $x" = false := by decide
example : contains_money "no money here" = false := by decide
example : countOcc "car" "Carcar carts" = 3 := by decide
example : countOcc "" "abc" = 4 := by decide
example : mkArticle 0 rowT = some artT := by decide

/-!
## Helper lemmas
-/

/-- The accumulator loop of `prepare_articles` is a map. -/
theorem foldl_append_map (f : α → β) :
    ∀ (l : List α) (acc : List β),
      l.foldl (fun a x => a ++ [f x]) acc = acc ++ l.map f := by
  intro l
  induction l with
  | nil => intro acc; simp
  | cons x xs ih => intro acc; simp [ih]

/-- A member of a list given by `getLast?`. -/
theorem mem_of_getLastQ : ∀ (l : List α) (e : α), l.getLast? = some e → e ∈ l := by
  intro l
  induction l with
  | nil => intro e h; cases h
  | cons a t ih =>
    intro e h
    cases t with
    | nil =>
      simp [List.getLast?] at h
      simp [h]
    | cons b t2 =>
      rw [List.getLast?_cons_cons] at h
      exact List.mem_cons_of_mem a (ih e h)

/-- In a `Pairwise r` list, every member is either the last element or
related to it. -/
theorem pairwise_rel_getLastQ (r : α → α → Prop) :
    ∀ (l : List α) (e : α), l.Pairwise r → l.getLast? = some e →
      ∀ x ∈ l, x = e ∨ r x e := by
  intro l
  induction l with
  | nil => intro e _ h; cases h
  | cons a t ih =>
    intro e hp hl x hx
    cases t with
    | nil =>
      simp [List.getLast?] at hl
      rcases List.mem_singleton.mp hx with rfl
      exact Or.inl hl
    | cons b t2 =>
      rw [List.getLast?_cons_cons] at hl
      rcases List.mem_cons.mp hx with rfl | hx2
      · have he : e ∈ b :: t2 := mem_of_getLastQ _ _ hl
        exact Or.inr ((List.pairwise_cons.mp hp).1 e he)
      · exact ih e (List.pairwise_cons.mp hp).2 hl x hx2

/-- The last element of the stable ascending sort is key-maximal among the
input, hence `find_fuzzy` returns a candidate of maximal similarity. -/
theorem sortAsc_getLast_max (key : α → Score) (l : List α) (e : α)
    (h : (List.insertionSort (keyLe key) l).getLast? = some e) :
    e ∈ l ∧ ∀ x ∈ l, (key x).le (key e) := by
  have hs : (List.insertionSort (keyLe key) l).Pairwise (keyLe key) :=
    List.sorted_insertionSort (keyLe key) l
  have hmem : e ∈ l :=
    (List.mem_insertionSort (keyLe key)).mp (mem_of_getLastQ _ _ h)
  refine ⟨hmem, fun x hx => ?_⟩
  have hx2 : x ∈ List.insertionSort (keyLe key) l :=
    (List.mem_insertionSort (keyLe key)).mpr hx
  rcases pairwise_rel_getLastQ (keyLe key) _ e hs h x hx2 with rfl | hr
  · exact Score.le_refl _
  · exact hr

/-- The head of the stable descending sort is key-maximal among the input,
hence the ranking step of `select_option` picks a candidate of maximal
similarity. -/
theorem sortDesc_head_max (key : α → Score) (l : List α) (e : α)
    (h : (List.insertionSort (keyGe key) l).head? = some e) :
    e ∈ l ∧ ∀ x ∈ l, (key x).le (key e) := by
  have hs : (List.insertionSort (keyGe key) l).Pairwise (keyGe key) :=
    List.sorted_insertionSort (keyGe key) l
  cases hsort : List.insertionSort (keyGe key) l with
  | nil => rw [hsort] at h; cases h
  | cons a t =>
    rw [hsort] at h
    have ha : a = e := by simpa using h
    subst ha
    have hmem : a ∈ l := (List.mem_insertionSort (keyGe key)).mp (by rw [hsort]; simp)
    refine ⟨hmem, fun x hx => ?_⟩
    have hx2 : x ∈ a :: t := by
      rw [← hsort]
      exact (List.mem_insertionSort (keyGe key)).mpr hx
    rcases List.mem_cons.mp hx2 with rfl | hx3
    · exact Score.le_refl _
    · have hp := (List.pairwise_cons.mp (hsort ▸ hs)).1 x hx3
      exact hp

/-- A sorted permutation of a non-empty list is non-empty. -/
theorem insertionSort_ne_nil (r : α → α → Prop) [DecidableRel r] (l : List α)
    (h : l ≠ []) : List.insertionSort r l ≠ [] := by
  intro hcon
  have := (List.perm_insertionSort r l).length_eq
  rw [hcon] at this
  exact h (List.eq_nil_of_length_eq_zero this.symm)

/-- One-step unfolding of the `while` loop. -/
theorem collectGo_succ_eq (env : List Page) (now : Int) (results : Nat)
    (fuel : Nat) (st : CState) :
    collectGo env now results (fuel + 1) st =
      if st.more = false then .done st.arts st.clicks
      else
        if (env.getD st.idx ⟨false, [], false⟩).header then
          if (env.getD st.idx ⟨false, [], false⟩).rows.isEmpty then
            collectGo env now results fuel st
          else
            match processRows now results (env.getD st.idx ⟨false, [], false⟩).rows
                st.arts st.cont with
            | none => .aborted
            | some (arts, cont, more) =>
              if (env.getD st.idx ⟨false, [], false⟩).hasNext then
                collectGo env now results fuel
                  ⟨st.idx + 1, arts, cont, if results < cont then false else more,
                    st.clicks + 1⟩
              else collectGo env now results fuel ⟨st.idx, arts, cont, more, st.clicks⟩
        else collectGo env now results fuel st := rfl

/-- A run that has terminated keeps its result under additional fuel. -/
theorem collectGo_fuel_stable (env : List Page) (now : Int) (results : Nat) :
    ∀ (fuel : Nat) (st : CState),
      collectGo env now results fuel st ≠ CollectRes.fuelOut →
      collectGo env now results (fuel + 1) st = collectGo env now results fuel st := by
  intro fuel
  induction fuel with
  | zero => intro st h; exact absurd rfl h
  | succ n ih =>
    intro st h
    rw [collectGo_succ_eq] at h
    rw [collectGo_succ_eq env now results (n + 1) st, collectGo_succ_eq env now results n st]
    by_cases hm : st.more = false
    · simp only [if_pos hm]
    · simp only [if_neg hm] at h ⊢
      by_cases hh : (env.getD st.idx ⟨false, [], false⟩).header = true
      · simp only [if_pos hh] at h ⊢
        by_cases hr : (env.getD st.idx ⟨false, [], false⟩).rows.isEmpty = true
        · simp only [if_pos hr] at h ⊢
        · simp only [if_neg hr] at h ⊢
          cases hp : processRows now results (env.getD st.idx ⟨false, [], false⟩).rows
              st.arts st.cont with
          | none => simp only [hp]
          | some triple =>
            obtain ⟨arts, cont, more⟩ := triple
            simp only [hp] at h ⊢
            by_cases hn : (env.getD st.idx ⟨false, [], false⟩).hasNext = true
            · simp only [if_pos hn] at h ⊢
              exact ih _ h
            · simp only [if_neg hn] at h ⊢
              exact ih _ h
      · simp only [if_neg hh] at h ⊢

/-- While every probe up to the deadline is absent, the loop reaches the
final probe call and returns its result after `r + 1` calls in total. -/
theorem waitGo_final (probe : Nat → Option α) :
    ∀ (r k : Nat), (∀ j, j < r → probe (k + j) = none) →
      waitGo probe r k = (probe (k + r), k + r + 1) := by
  intro r
  induction r with
  | zero => intro k _; simp [waitGo]
  | succ n ih =>
    intro k h
    have h0 : probe k = none := by simpa using h 0 (Nat.succ_pos n)
    have step : waitGo probe (n + 1) k = waitGo probe n (k + 1) := by
      simp [waitGo, h0]
    rw [step, ih (k + 1) (fun j hj => by
      have heq : k + 1 + j = k + (j + 1) := by omega
      rw [heq]
      exact h (j + 1) (by omega))]
    have heq2 : k + 1 + n = k + (n + 1) := by omega
    rw [heq2]

/-- The first present probe value is returned immediately, after exactly
`n + 1` calls when it appears on call `n` strictly before the deadline. -/
theorem waitGo_firstHit (probe : Nat → Option α) :
    ∀ (n r k : Nat) (x : α), (∀ j, j < n → probe (k + j) = none) →
      probe (k + n) = some x → n < r →
      waitGo probe r k = (some x, k + n + 1) := by
  intro n
  induction n with
  | zero =>
    intro r k x _ hx hr
    obtain ⟨r2, rfl⟩ : ∃ r2, r = r2 + 1 := ⟨r - 1, by omega⟩
    simp at hx
    simp [waitGo, hx]
  | succ m ih =>
    intro r k x h hx hr
    obtain ⟨r2, rfl⟩ : ∃ r2, r = r2 + 1 := ⟨r - 1, by omega⟩
    have h0 : probe k = none := by simpa using h 0 (Nat.succ_pos m)
    have step : waitGo probe (r2 + 1) k = waitGo probe r2 (k + 1) := by
      simp [waitGo, h0]
    rw [step]
    have hx2 : probe (k + 1 + m) = some x := by
      have heq : k + 1 + m = k + (m + 1) := by omega
      rw [heq]; exact hx
    have := ih r2 (k + 1) x (fun j hj => by
      have heq : k + 1 + j = k + (j + 1) := by omega
      rw [heq]
      exact h (j + 1) (by omega)) hx2 (by omega)
    rw [this]
    have heq2 : k + 1 + m = k + (m + 1) := by omega
    rw [heq2]

/-- One-step unfolding of the `retry` loop. -/
theorem retryGo_succ_eq (f : Nat → Except Exc α) (attempts r attempt : Nat) :
    retryGo f attempts (r + 1) attempt =
      match f attempt with
      | .ok v => ⟨.ok (some v), 1, 0⟩
      | .error e =>
        if e.isDontRetry then ⟨.error e, 1, 0⟩
        else if attempts ≤ attempt + 1 then ⟨.error e, 1, 0⟩
        else
          ⟨(retryGo f attempts r (attempt + 1)).result,
            (retryGo f attempts r (attempt + 1)).calls + 1,
            (retryGo f attempts r (attempt + 1)).sleeps + 1⟩ := rfl

/-- When every call raises the same non-`DontRetry` exception, the loop
makes exactly the remaining number of calls, sleeps between them, and
re-raises the exception unchanged. -/
theorem retryGo_allFail (f : Nat → Except Exc α) (e : Exc)
    (he : e.isDontRetry = false) (hf : ∀ k, f k = .error e) (attempts : Nat) :
    ∀ (r k : Nat), 1 ≤ r → k + r = attempts →
      retryGo f attempts r k = ⟨.error e, r, r - 1⟩ := by
  intro r
  induction r with
  | zero => intro k h1 _; omega
  | succ m ih =>
    intro k _ hk
    cases m with
    | zero =>
      show retryGo f attempts 1 k = _
      have hle : attempts ≤ k + 1 := by omega
      simp [retryGo, hf k, he, hle]
    | succ m2 =>
      have hnle : ¬ attempts ≤ k + 1 := by omega
      have hrec := ih (k + 1) (by omega) (by omega)
      rw [retryGo_succ_eq, hf k]
      simp [he, hnle, hrec]

/-!
## Claim theorems
-/

/-- C1: In the collection loop of `ScraperMethods.collect_articles`,
requesting 5 results against a page of 10 rows terminates with exactly 5
accumulated articles and at most one click on the next-page control (one
when the control exists, none otherwise — never a second); requesting 15
results against two pages of 10 rows terminates with 15 articles and
exactly one next-page click. -/
theorem collect_articles_pagination :
    ∀ f : Nat,
      collectGo envA1 0 5 (f + 2) st0 = .done (List.replicate 5 artT) 1 ∧
      collectGo envA2 0 5 (f + 2) st0 = .done (List.replicate 5 artT) 0 ∧
      collectGo envB 0 15 (f + 3) st0 = .done (List.replicate 15 artT) 1 := by
  intro f
  induction f with
  | zero => exact ⟨by decide, by decide, by decide⟩
  | succ n ih =>
    obtain ⟨h1, h2, h3⟩ := ih
    refine ⟨?_, ?_, ?_⟩
    · have hs := collectGo_fuel_stable envA1 0 5 (n + 2) st0 (by rw [h1]; simp)
      rw [show n + 1 + 2 = (n + 2) + 1 from rfl, hs, h1]
    · have hs := collectGo_fuel_stable envA2 0 5 (n + 2) st0 (by rw [h2]; simp)
      rw [show n + 1 + 2 = (n + 2) + 1 from rfl, hs, h2]
    · have hs := collectGo_fuel_stable envB 0 15 (n + 3) st0 (by rw [h3]; simp)
      rw [show n + 1 + 3 = (n + 3) + 1 from rfl, hs, h3]

/-- The loop makes no progress at all when the results container is
absent: the state is unchanged in every iteration. -/
theorem collectAbsent_diverges :
    ∀ fuel : Nat, collectGo envAbsent 0 5 fuel st0 = .fuelOut := by
  intro fuel
  induction fuel with
  | zero => rfl
  | succ n ih => exact ih

/-- With rows but no next-page control and a requested count of 0, the
loop never clears `more_results`: the row counter starts at 1 and only
grows, so `results == cont` never holds and the `results < cont` reset is
guarded by the absent next-page control. -/
theorem collectNoNextZero_diverges :
    ∀ (fuel : Nat) (arts : List Article) (cont : Nat) (clicks : Nat), 1 ≤ cont →
      collectGo envNoNext 0 0 fuel ⟨0, arts, cont, true, clicks⟩ = .fuelOut := by
  intro fuel
  induction fuel with
  | zero => intros; rfl
  | succ n ih =>
    intro arts cont clicks hc
    have hproc : processRows 0 0 [rowT] arts cont =
        some (arts ++ [artT], cont + 1, true) := by
      have hne : ¬((0 : Nat) = cont) := by omega
      show (if (0 : Nat) = cont then some (arts ++ [artT], cont, false)
            else processRows 0 0 [] (arts ++ [artT]) (cont + 1)) = _
      rw [if_neg hne]
      rfl
    have hpage : envNoNext.getD 0 ⟨false, [], false⟩ = ⟨true, [rowT], false⟩ := rfl
    rw [collectGo_succ_eq, hpage]
    simp [hproc]
    exact ih (arts ++ [artT]) (cont + 1) clicks (by omega)

/-- C2: Refuted on the code — `collect_articles` does not terminate for
every page state.  When the results container is absent the loop spins
forever instead of aborting; when no next-page control exists and the
requested count is not yet satisfied (here `results = 0`) the loop never
stops; and when it does stop in the latter situation (requested count 3
against a single repeated row), it has re-collected the same page rather
than returning the one-page accumulation.  (Only the "requested count
already satisfied" stop is real, as proved for C1.) -/
theorem collect_articles_divergence :
    (∀ fuel : Nat, collectGo envAbsent 0 5 fuel st0 = .fuelOut) ∧
    (∀ fuel : Nat, collectGo envNoNext 0 0 fuel st0 = .fuelOut) ∧
    (∀ f : Nat, collectGo envNoNext 0 3 (f + 4) st0 = .done (List.replicate 3 artT) 0) := by
  refine ⟨collectAbsent_diverges, ?_, ?_⟩
  · intro fuel
    exact collectNoNextZero_diverges fuel [] 1 0 (by omega)
  · intro f
    induction f with
    | zero => decide
    | succ n ih =>
      have hs := collectGo_fuel_stable envNoNext 0 3 (n + 4) st0 (by rw [ih]; simp)
      rw [show n + 1 + 4 = (n + 4) + 1 from rfl, hs, ih]

/-- C3: `wait_for` returns the first present probe value immediately
(after `n + 1` calls when the first hit is on probe call `n`); with the
quarter-second poll interval it loops until the elapsed time reaches the
timeout and then makes exactly one final probe call, returning that call's
result; in particular an always-absent probe yields `none` after exactly
`timeout/0.25 + 1` probe invocations. -/
theorem wait_for_spec (α : Type) (timeout : Nat) (probe : Nat → Option α) :
    ((∀ k, probe k = none) → wait_for_trace probe timeout = (none, 4 * timeout + 1)) ∧
    ((∀ j, j < 4 * timeout → probe j = none) →
      wait_for_trace probe timeout = (probe (4 * timeout), 4 * timeout + 1)) ∧
    (∀ (n : Nat) (x : α), n < 4 * timeout → (∀ j, j < n → probe j = none) →
      probe n = some x → wait_for_trace probe timeout = (some x, n + 1)) := by
  refine ⟨?_, ?_, ?_⟩
  · intro h
    have hw := waitGo_final probe (4 * timeout) 0 (fun j _ => by simpa using h j)
    simpa [wait_for_trace, h (4 * timeout)] using hw
  · intro h
    have hw := waitGo_final probe (4 * timeout) 0 (fun j hj => by simpa using h j hj)
    simpa [wait_for_trace] using hw
  · intro n x hn h hx
    have hw := waitGo_firstHit probe n (4 * timeout) 0 x
      (fun j hj => by simpa using h j hj) (by simpa using hx) hn
    simpa [wait_for_trace] using hw

/-- C3 witness: with a one-second timeout and an always-absent probe,
`wait_for` returns `none` after exactly 5 probe calls. -/
theorem wait_for_spec_witness :
    wait_for_trace (fun _ => (none : Option Unit)) 1 = (none, 5) :=
  (wait_for_spec Unit 1 (fun _ => none)).1 (fun _ => rfl)

/-- C4: every article produced by `collect_articles` resolves its date at
extraction time: a relative `"N hours/minutes ago"` text becomes the
extraction wall clock minus that offset, any other text is parsed as an
absolute `"Month Day, Year"` date, and a text in neither format aborts the
collection with the `None` outcome for the work item (a reported failure,
not a crash — the model is a total function). -/
theorem article_date_resolution (now : Int) :
    articleDate now "3 hours ago" = some (now - 180) ∧
    articleDate now "45 minutes ago" = some (now - 45) ∧
    articleDate now "January 5, 2024" = some (dateToMinutes 2024 1 5) ∧
    articleDate now "Yesterday" = none ∧
    (∀ f : Nat,
      collectGo [⟨true, [⟨"t", "Yesterday", "d", none⟩], false⟩] now 1 (f + 1) st0 =
        .aborted) := by
  refine ⟨?_, ?_, ?_, ?_, ?_⟩
  · have h : timeAgoSearch (pyStrip "3 hours ago") = some (3, true) := by decide
    simp [articleDate, parse_time_ago, h]
  · have h : timeAgoSearch (pyStrip "45 minutes ago") = some (45, false) := by decide
    simp [articleDate, parse_time_ago, h]
  · have h1 : timeAgoSearch (pyStrip "January 5, 2024") = none := by decide
    have h2 : strptimeBDY (pyStrip "January 5, 2024") = some (2024, 1, 5) := by decide
    simp [articleDate, parse_time_ago, h1, h2]
  · rfl
  · intro f
    rfl

/-- C5: for a single `Selector`, `find_element` dispatches exactly the
first applicable strategy under the fixed precedence xpath > css+attribute
> css+text > css alone, and no lower-precedence strategy is attempted: the
dispatched-query trace for that selector is exactly the one chosen
strategy. -/
theorem find_element_strategy_precedence (α : Type) (page : Strategy → Option α)
    (s : Selector) :
    (s.xpath ≠ "" → strategyOf s = some (.byXpath s.xpath)) ∧
    (s.xpath = "" → s.css ≠ "" → ∀ a v, s.attr = some (a, v) →
      strategyOf s = some (.byCssAttr s.css a v)) ∧
    (s.xpath = "" → s.css ≠ "" → s.attr = none → s.text ≠ "" →
      strategyOf s = some (.byCssText s.css s.text)) ∧
    (s.xpath = "" → s.css ≠ "" → s.attr = none → s.text = "" →
      strategyOf s = some (.byCss s.css)) ∧
    (∀ st, strategyOf s = some st → findElementRun page [s] = (page st, [st])) := by
  refine ⟨?_, ?_, ?_, ?_, ?_⟩
  · intro hx
    simp [strategyOf, hx]
  · intro hx hc a v ha
    simp [strategyOf, hx, hc, ha]
  · intro hx hc ha ht
    simp [strategyOf, hx, hc, ha, ht]
  · intro hx hc ha ht
    simp [strategyOf, hx, hc, ha, ht]
  · intro st hst
    show (match strategyOf s with
      | none => findElementRun page []
      | some st =>
        match page st with
        | some e => (some e, [st])
        | none => ((findElementRun page []).1, st :: (findElementRun page []).2)) = _
    rw [hst]
    cases hp : page st with
    | some e => simp [hp]
    | none => simp [hp, findElementRun]

/-- C5 witness: a selector with all four fields populated dispatches only
the xpath strategy. -/
theorem find_element_strategy_precedence_witness :
    strategyOf ⟨"c", "x", "t", some ("a", "v")⟩ = some (.byXpath "x") ∧
    findElementRun (fun _ => (none : Option Nat)) [⟨"c", "x", "t", some ("a", "v")⟩] =
      (none, [.byXpath "x"]) := by
  have h := find_element_strategy_precedence Nat (fun _ => none) ⟨"c", "x", "t", some ("a", "v")⟩
  have h1 : strategyOf ⟨"c", "x", "t", some ("a", "v")⟩ = some (.byXpath "x") :=
    h.1 (by decide)
  exact ⟨h1, h.2.2.2.2 _ h1⟩

/-- C6: `find_element` tries the selectors strictly in list order and the
first selector whose query yields a match determines the result (the
result is the head of the per-selector outcomes, a deterministic
short-circuit); in particular for `[A, B]` with A yielding no match and B
yielding one, the result is B's match. -/
theorem find_element_list_order (α : Type) (page : Strategy → Option α) :
    (∀ sels : List Selector,
      find_element page sels =
        (sels.filterMap (fun s => (strategyOf s).bind page)).head?) ∧
    (∀ (A B : Selector) (stA stB : Strategy) (e : α),
      strategyOf A = some stA → page stA = none →
      strategyOf B = some stB → page stB = some e →
      find_element page [A, B] = some e) := by
  have main : ∀ sels : List Selector,
      find_element page sels =
        (sels.filterMap (fun s => (strategyOf s).bind page)).head? := by
    intro sels
    induction sels with
    | nil => rfl
    | cons s rest ih =>
      show (match strategyOf s with
        | none => findElementRun page rest
        | some st =>
          match page st with
          | some e => (some e, [st])
          | none => ((findElementRun page rest).1, st :: (findElementRun page rest).2)).1 =
          _
      cases hs : strategyOf s with
      | none => simpa [List.filterMap_cons, hs] using ih
      | some st =>
        cases hp : page st with
        | some e => simp [List.filterMap_cons, hs, hp]
        | none =>
          simpa [List.filterMap_cons, hs, hp] using ih
  refine ⟨main, ?_⟩
  intro A B stA stB e hA hpA hB hpB
  rw [main [A, B]]
  simp [List.filterMap_cons, hA, hpA, hB, hpB]

/-- C6 witness: with an xpath-only selector whose query misses and a
css-only selector whose query hits element 7, the css selector's match is
returned. -/
theorem find_element_list_order_witness :
    find_element
        (fun st => match st with
          | .byCss _ => some 7
          | _ => (none : Option Nat))
        [⟨"", "x", "", none⟩, ⟨"c", "", "", none⟩] = some 7 :=
  (find_element_list_order Nat _).2 ⟨"", "x", "", none⟩ ⟨"c", "", "", none⟩
    (.byXpath "x") (.byCss "c") 7 (by decide) rfl (by decide) rfl

/-- C7 counterexample: two candidates with identical labels (hence equal
similarity ratios to the target) distinguished by their handles.
`find_fuzzy` returns the candidate occurring last in the input order, not
the first as claimed: Python's stable ascending sort keeps key-equal
elements in input order and `[-1]` takes the final one. -/
theorem find_fuzzy_tie_counterexample :
    find_fuzzy [("dup", 0), ("dup", 1)] Prod.fst "dup" = some ("dup", 1) ∧
    some (("dup", 1) : String × Nat) ≠ some (("dup", 0) : String × Nat) := by
  exact ⟨by decide, by decide⟩

/-- C7 (amended): `find_fuzzy` returns a candidate whose normalized
similarity ratio to the target is maximal; when several candidates tie for
the maximum ratio, the candidate occurring *last* in the input order is
returned (witness: the duplicate-label list); an exact match after
normalization still always wins over a near-miss (witness: `"Business"`
beats `"Busines"` and `"Sports"` for target `"business"`). -/
theorem find_fuzzy_amended (α : Type) :
    (∀ (elems : List α) (toS : α → String) (target : String) (e : α),
      find_fuzzy elems toS target = some e →
      e ∈ elems ∧ ∀ x ∈ elems, (fkey toS target x).le (fkey toS target e)) ∧
    find_fuzzy ["Business", "Sports", "Busines"] id "business" = some "Business" ∧
    find_fuzzy [("tie", 0), ("tie", 1)] Prod.fst "tie" = some ("tie", 1) := by
  refine ⟨?_, by decide, by decide⟩
  intro elems toS target e h
  exact sortAsc_getLast_max (fkey toS target) elems e h

/-- C7 witness: instantiating the maximality statement on a concrete
one-element list. -/
theorem find_fuzzy_amended_witness :
    ("a" ∈ (["a"] : List String)) ∧
      (fkey id "a" "a").le (fkey id "a" "a") :=
  ⟨((find_fuzzy_amended String).1 ["a"] id "a" "a" (by decide)).1,
    ((find_fuzzy_amended String).1 ["a"] id "a" "a" (by decide)).2 "a" (by decide)⟩

/-- C8: whenever the maximum similarity ratio is attained by exactly one
candidate, the descending-sort-then-head ranking of `select_option` and
the ascending-sort-then-last ranking of `find_fuzzy` pick the same
winner. -/
theorem select_option_find_fuzzy_agree (α : Type) (toS : α → String) (target : String)
    (opts : List α) (e : α) (he : e ∈ opts)
    (hdom : ∀ x ∈ opts, x = e ∨ (fkey toS target x).lt (fkey toS target e)) :
    select_option_rank opts toS target = some e ∧ find_fuzzy opts toS target = some e := by
  have hne : opts ≠ [] := List.ne_nil_of_mem he
  constructor
  · have hs : List.insertionSort (keyGe (fkey toS target)) opts ≠ [] :=
      insertionSort_ne_nil _ opts hne
    cases hh : (List.insertionSort (keyGe (fkey toS target)) opts).head? with
    | none =>
      exact absurd (List.head?_eq_none_iff.mp hh) hs
    | some g =>
      obtain ⟨hmem, hmax⟩ := sortDesc_head_max (fkey toS target) opts g hh
      rcases hdom g hmem with rfl | hlt
      · exact hh
      · exact absurd (hmax e he) (Score.not_le_of_lt hlt)
  · have hs : List.insertionSort (keyLe (fkey toS target)) opts ≠ [] :=
      insertionSort_ne_nil _ opts hne
    cases hh : (List.insertionSort (keyLe (fkey toS target)) opts).getLast? with
    | none =>
      exact absurd (List.getLast?_eq_none_iff.mp hh) hs
    | some g =>
      obtain ⟨hmem, hmax⟩ := sortAsc_getLast_max (fkey toS target) opts g hh
      rcases hdom g hmem with rfl | hlt
      · exact hh
      · exact absurd (hmax e he) (Score.not_le_of_lt hlt)

/-- C8 witness: on `["yes", "no"]` with target `"yes"` the winner is
unique, and both rankings select `"yes"`. -/
theorem select_option_find_fuzzy_agree_witness :
    select_option_rank ["yes", "no"] id "yes" = some "yes" ∧
      find_fuzzy ["yes", "no"] id "yes" = some "yes" :=
  select_option_find_fuzzy_agree String id "yes" ["yes", "no"] "yes" (by decide) (by decide)

/-- C9 counterexample: `retry` with a callee that always raises a plain
`RuntimeError` exhausts its 2-attempt budget (2 calls, 1 sleep between
them) and re-raises the *original* exception object, which carries no
attached diagnostic metadata — `Fatal` is defined but never applied by
`retry`, contradicting the claimed metadata attachment. -/
theorem retry_no_metadata_counterexample :
    retry_run (fun _ => (Except.error (Exc.plain "RuntimeError" "boom") :
        Except Exc Unit)) 2 =
      ⟨.error (.plain "RuntimeError" "boom"), 2, 1⟩ ∧
    Exc.hasMeta (.plain "RuntimeError" "boom") = false :=
  ⟨rfl, rfl⟩

/-- C9 (amended): `retry` re-raises a `DontRetryException` immediately
(one call, no sleep, regardless of the remaining budget); every other
exception is retried with a sleep between attempts up to the attempt
budget, after which the final fault is re-raised unchanged; the `Fatal`
wrapper defined alongside computes diagnostic metadata (retriable flag,
exception class name, message, caller-supplied context) but `retry` never
attaches it. -/
theorem retry_amended (α : Type) (f : Nat → Except Exc α) (attempts : Nat) (e : Exc) :
    (∀ n m, 1 ≤ attempts → f 0 = .error (.dontRetry n m) →
      retry_run f attempts = ⟨.error (.dontRetry n m), 1, 0⟩) ∧
    (1 ≤ attempts → (∀ k, f k = .error e) → e.isDontRetry = false →
      retry_run f attempts = ⟨.error e, attempts, attempts - 1⟩) ∧
    (∀ (base : List (String × String)) (n m : String),
      (fatalMetadata (.dontRetry n m) base).retriable = false ∧
      (fatalMetadata (.plain n m) base).retriable = true ∧
      (fatalMetadata (.plain n m) base).exception_name = n ∧
      (fatalMetadata (.plain n m) base).exception_message = m ∧
      (fatalMetadata (.plain n m) base).context = base) := by
  refine ⟨?_, ?_, ?_⟩
  · intro n m h1 hf
    obtain ⟨a, rfl⟩ : ∃ a, attempts = a + 1 := ⟨attempts - 1, by omega⟩
    show retryGo f (a + 1) (a + 1) 0 = _
    rw [retryGo_succ_eq, hf]
    rfl
  · intro h1 hf he
    exact retryGo_allFail f e he hf attempts attempts 0 h1 (by omega)
  · intro base n m
    exact ⟨rfl, rfl, rfl, rfl, rfl⟩

/-- C9 witness: two attempts against an always-failing plain exception
make 2 calls with 1 sleep and re-raise the exception unchanged. -/
theorem retry_amended_witness :
    retry_run (fun _ => (Except.error (Exc.plain "E" "m") : Except Exc Unit)) 2 =
      ⟨.error (.plain "E" "m"), 2, 1⟩ :=
  (retry_amended Unit (fun _ => .error (.plain "E" "m")) 2 (.plain "E" "m")).2.1
    (by omega) (fun _ => rfl) rfl

/-- C10: `prepare_articles` builds a fresh output list: one newly
constructed article per input article, in input order (the embedding is a
pure function of the input, mirroring the source, which only reads the
input articles and writes the new `Article` objects); a `None` or empty
input yields `None`, not an empty list. -/
theorem prepare_articles_fresh_list (download : String → String → Option String)
    (phrase : String) :
    (∀ l : List Article, l ≠ [] →
      prepare_articles download (some l) phrase =
        some (l.map (prepareOne download phrase))) ∧
    prepare_articles download (some []) phrase = none ∧
    prepare_articles download none phrase = none := by
  refine ⟨?_, rfl, rfl⟩
  intro l hl
  show (if l.isEmpty then none
    else some (l.foldl (fun acc a => acc ++ [prepareOne download phrase a]) [])) = _
  rw [if_neg (by simpa using hl)]
  rw [foldl_append_map]
  simp

/-- C10 witness: a one-article list is mapped to the freshly constructed
article. -/
theorem prepare_articles_fresh_list_witness :
    prepare_articles (fun _ _ => none) (some [{ title := "a" }]) "a" =
      some (List.map (prepareOne (fun _ _ => none) "a") [{ title := "a" }]) :=
  (prepare_articles_fresh_list (fun _ _ => none) "a").1 [{ title := "a" }]
    (List.cons_ne_nil _ _)
